import Mathlib

/-!
Verification of the `shorten` URL-shortener core: a shallow embedding of
`app/db.py` (the link store), `app/main.py` (URL validation, the allocation
protocol, session authentication) and `app/shortcodes.py`.

Timestamps are modelled as integers (seconds).  The backing store's `links`
table is a `List Link`; each `Database` method becomes a pure function on
that list, returning the new list together with the value the method
returns.  Library crypto / codec primitives (HMAC-SHA256, base64url, JSON)
are external collaborators and enter as function parameters.
-/

set_option autoImplicit false

namespace Shorten

/-- Link is one persistent row of the `links` table (see `init_schema` in
`app/db.py`). -/
structure Link where
  code : String
  target_url : String
  created_at : Int
  last_access_at : Int
  active : Bool
  click_count : Nat
  never_expires : Bool
  monetize : Bool
deriving Repr, DecidableEq

/-- LinkDb is the state of the `links` table. -/
abbrev LinkDb := List Link

/-- The schema invariant coming from `code TEXT PRIMARY KEY`: codes are
pairwise distinct across rows. -/
def codesNodup (db : LinkDb) : Prop :=
  (db.map Link.code).Nodup

instance (db : LinkDb) : Decidable (codesNodup db) := by
  unfold codesNodup; infer_instance

/-! ## `app/db.py`: the link store operations -/

/-- Row predicate of the `UPDATE ... WHERE` clause of `expire_inactive`:
`active = true AND never_expires = false AND last_access_at < cutoff`. -/
def expireMatch (cutoff : Int) (l : Link) : Bool :=
  l.active && !l.never_expires && decide (l.last_access_at < cutoff)

/-- Database.expire_inactive: with `cutoff = now - inactivity window`, sets
`active := false` on every row matching `expireMatch`; returns the new table
and the affected row count (`cur.rowcount`). -/
def expire_inactive (now inactivity : Int) (db : LinkDb) : LinkDb × Nat :=
  let cutoff := now - inactivity
  (db.map (fun l => if expireMatch cutoff l then { l with active := false } else l),
   (db.filter (expireMatch cutoff)).length)

/-- Database.get_active: `SELECT * FROM links WHERE code = %s AND active = true`. -/
def get_active (code : String) (db : LinkDb) : Option Link :=
  db.find? (fun l => l.code == code && l.active)

/-- Database.touch: `UPDATE links SET last_access_at = now, click_count =
click_count + 1 WHERE code = %s AND active = true`. -/
def touch (now : Int) (code : String) (db : LinkDb) : LinkDb :=
  db.map (fun l =>
    if l.code == code && l.active then
      { l with last_access_at := now, click_count := l.click_count + 1 }
    else l)

/-- The fresh row inserted by `upsert_inactive_or_insert` when no row with
`code` exists (`click_count` and `never_expires` take their schema defaults). -/
def freshRow (now : Int) (code target_url : String) (monetize : Bool) : Link :=
  { code := code, target_url := target_url, created_at := now,
    last_access_at := now, active := true, click_count := 0,
    never_expires := false, monetize := monetize }

/-- Row update performed by the `ON CONFLICT ... DO UPDATE` arm of
`upsert_inactive_or_insert` and by the `UPDATE` of `recycle_one_inactive`:
overwrite `target_url`, `created_at`, `last_access_at`, `monetize` and set
`active := true`, keeping `click_count` and `never_expires`. -/
def reactivate (now : Int) (target_url : String) (monetize : Bool) (l : Link) : Link :=
  { l with target_url := target_url, created_at := now, last_access_at := now,
           active := true, monetize := monetize }

/-- Database.upsert_inactive_or_insert: a single conditional upsert.
`INSERT ... ON CONFLICT (code) DO UPDATE SET ... WHERE links.active = false
RETURNING code`; returns `true` iff a row was inserted or updated. -/
def upsert_inactive_or_insert (now : Int) (code target_url : String)
    (monetize : Bool) (db : LinkDb) : LinkDb × Bool :=
  match db.find? (fun l => l.code == code) with
  | none => (db ++ [freshRow now code target_url monetize], true)
  | some l =>
    if l.active then (db, false)
    else
      (db.map (fun r =>
        if r.code == code && !r.active then reactivate now target_url monetize r else r),
       true)

/-- The accumulator step of an `ORDER BY last_access_at ASC LIMIT 1` scan:
keep whichever row has the smaller `last_access_at`. -/
def minStep (acc : Option Link) (l : Link) : Option Link :=
  match acc with
  | none => some l
  | some b => if l.last_access_at < b.last_access_at then some l else some b

/-- The `SELECT code FROM links WHERE active = false ORDER BY last_access_at
ASC LIMIT 1` of `recycle_one_inactive`: the first inactive row achieving the
minimum `last_access_at`. -/
def selectOldestInactive (db : LinkDb) : Option Link :=
  (db.filter (fun l => !l.active)).foldl minStep none

/-- The `UPDATE links SET ... WHERE code = %s AND active = false` of
`recycle_one_inactive`, returning the new table and `cur.rowcount`. -/
def recycleUpdate (now : Int) (target_url : String) (monetize : Bool)
    (code : String) (db : LinkDb) : LinkDb × Nat :=
  (db.map (fun l =>
     if l.code == code && !l.active then reactivate now target_url monetize l else l),
   (db.filter (fun l => l.code == code && !l.active)).length)

/-- Database.recycle_one_inactive with the two statements' snapshots made
explicit: the `SELECT` reads `dbSel`, the `UPDATE` runs against `dbUpd`
(under READ COMMITTED a concurrent commit may change the state between the
two statements; sequentially `dbSel = dbUpd`).  Returns `none` when there is
no inactive row, and when the update affects zero rows. -/
def recycle_racy (now : Int) (target_url : String) (monetize : Bool)
    (dbSel dbUpd : LinkDb) : LinkDb × Option String :=
  match selectOldestInactive dbSel with
  | none => (dbUpd, none)
  | some sel =>
    if (recycleUpdate now target_url monetize sel.code dbUpd).2 = 0 then
      ((recycleUpdate now target_url monetize sel.code dbUpd).1, none)
    else
      ((recycleUpdate now target_url monetize sel.code dbUpd).1, some sel.code)

/-- Database.recycle_one_inactive run without interference (both statements
see the same state). -/
def recycle_one_inactive (now : Int) (target_url : String) (monetize : Bool)
    (db : LinkDb) : LinkDb × Option String :=
  recycle_racy now target_url monetize db db

/-- Database.delete_link: `DELETE FROM links WHERE code = %s`; returns
`bool(cur.rowcount)`. -/
def delete_link (code : String) (db : LinkDb) : LinkDb × Bool :=
  (db.filter (fun l => !(l.code == code)), db.any (fun l => l.code == code))

/-- Database.set_never_expires: `UPDATE links SET never_expires = %s WHERE
code = %s`; returns `bool(cur.rowcount)`. -/
def set_never_expires (code : String) (value : Bool) (db : LinkDb) : LinkDb × Bool :=
  (db.map (fun l => if l.code == code then { l with never_expires := value } else l),
   db.any (fun l => l.code == code))

/-- Database.set_monetize: `UPDATE links SET monetize = %s WHERE code = %s`;
returns `bool(cur.rowcount)`. -/
def set_monetize (code : String) (value : Bool) (db : LinkDb) : LinkDb × Bool :=
  (db.map (fun l => if l.code == code then { l with monetize := value } else l),
   db.any (fun l => l.code == code))

/-- The `click_count` of the row for a code, when such a row exists. -/
def clickAt (c : String) (db : LinkDb) : Option Nat :=
  (db.find? (fun l => l.code == c)).map Link.click_count

/-! ## `app/db.py`: admin credential.  The `admin_users` table holds at most
one row (`id = 1`), modelled as `Option String` (its `password_hash`).
`_hash_password` (SHA-256 hex digest) is a library primitive, passed in as
`hashPw`. -/

/-- Database.get_admin_password_hash: the stored singleton hash, falling back
to the hash of the configured default admin password when no row exists. -/
def get_admin_password_hash (hashPw : String → String) (defaultPw : String)
    (admin : Option String) : String :=
  match admin with
  | some h => h
  | none => hashPw defaultPw

/-- Database.verify_admin_password: string equality of the stored hash with
the hash of the candidate. -/
def verify_admin_password (hashPw : String → String) (defaultPw : String)
    (admin : Option String) (candidate : String) : Bool :=
  get_admin_password_hash hashPw defaultPw admin == hashPw candidate

/-! ## `app/main.py`: URL validation (`is_http_url` and the normalization in
`shorten`).  `urllib.parse.urlparse` is embedded at the depth the validator
uses it: scheme splitting at the first `:` (the prefix must start with a
letter and consist of scheme characters) and netloc extraction after `//`. -/

/-- Characters allowed in a URL scheme by `urlparse`. -/
def isSchemeChar (c : Char) : Bool :=
  c.isAlpha || c.isDigit || c == '+' || c == '-' || c == '.'

/-- Splits a character list at the first `:`, returning the parts before and
after it. -/
def splitAtColon : List Char → Option (List Char × List Char)
  | [] => none
  | c :: rest =>
    if c = ':' then some ([], rest)
    else
      match splitAtColon rest with
      | some (a, b) => some (c :: a, b)
      | none => none

/-- Scheme extraction of `urlparse`: the text before the first `:` is the
scheme (lowercased) when it is nonempty, starts with a letter, and is all
scheme characters. -/
def splitScheme (cs : List Char) : Option (String × List Char) :=
  match splitAtColon cs with
  | none => none
  | some (pre, post) =>
    match pre with
    | [] => none
    | c0 :: _ =>
      if c0.isAlpha && pre.all isSchemeChar then
        some (String.mk (pre.map Char.toLower), post)
      else none

/-- Netloc extraction of `urlparse`, with its failure made explicit:
present only when the rest starts with `//`, running until the next `/`,
`?` or `#`; a netloc containing an unmatched `[` or `]` makes `urlsplit`
raise `ValueError("Invalid IPv6 URL")`, modelled as `none`. -/
def netlocOf (cs : List Char) : Option String :=
  match cs with
  | '/' :: '/' :: rest =>
    if (rest.takeWhile (fun c => !(c == '/') && !(c == '?') && !(c == '#'))).contains '['
        && !(rest.takeWhile (fun c => !(c == '/') && !(c == '?') && !(c == '#'))).contains ']'
      || (rest.takeWhile (fun c => !(c == '/') && !(c == '?') && !(c == '#'))).contains ']'
        && !(rest.takeWhile (fun c => !(c == '/') && !(c == '?') && !(c == '#'))).contains '['
    then none
    else some (String.mk
      (rest.takeWhile (fun c => !(c == '/') && !(c == '?') && !(c == '#'))))
  | _ => some ""

/-- is_http_url from `app/main.py`: the URL parses with scheme `http` or
`https` and a non-empty netloc; a `ValueError` from `urlparse` (unmatched
bracket in the netloc) is caught and yields `False`.  A parse failure on a
scheme-less URL also returns `False` through the same `except` arm, which
the scheme check below already produces, so only the scheme-ful raise needs
the explicit `none` branch. -/
def is_http_url (url : String) : Bool :=
  match splitScheme url.data with
  | none => false
  | some (scheme, rest) =>
    match netlocOf rest with
    | none => false
    | some nl => (scheme == "http" || scheme == "https") && !(nl == "")

/-- Whitespace characters stripped by Python's `str.strip()`: exactly the
characters for which `str.isspace()` holds (ASCII whitespace, the C0
separators, NEL, NBSP and the Unicode space/line/paragraph separators). -/
def isPySpace (c : Char) : Bool :=
  c == ' ' || c == '\t' || c == '\n' || c == '\r' || c == '\x0b' || c == '\x0c'
  || c == '\x1c' || c == '\x1d' || c == '\x1e' || c == '\x1f'
  || c == '\u0085' || c == '\u00a0' || c == '\u1680'
  || c == '\u2000' || c == '\u2001' || c == '\u2002' || c == '\u2003'
  || c == '\u2004' || c == '\u2005' || c == '\u2006' || c == '\u2007'
  || c == '\u2008' || c == '\u2009' || c == '\u200a'
  || c == '\u2028' || c == '\u2029' || c == '\u202f' || c == '\u205f'
  || c == '\u3000'

/-- Python `str.strip()`. -/
def stripStr (s : String) : String :=
  String.mk (((s.data.dropWhile isPySpace).reverse.dropWhile isPySpace).reverse)

/-- Decides whether `sub` is a prefix of `cs`. -/
def prefixEq : List Char → List Char → Bool
  | [], _ => true
  | _ :: _, [] => false
  | a :: as, b :: bs => a == b && prefixEq as bs

/-- Decides Python's `sub in s` (substring containment). -/
def hasSubstr (sub : List Char) : List Char → Bool
  | [] => prefixEq sub []
  | c :: rest => prefixEq sub (c :: rest) || hasSubstr sub rest

/-- The validation/normalization block at the top of `shorten` in
`app/main.py`: strip the input; if it is not an http(s) URL and contains no
`://`, contains a `.` and no space, try prefixing `https://`; accept the
result only if it now validates.  Returns the URL that will be stored, or
`none` for the 400 response. -/
def validate_url (input : String) : Option String :=
  let url := stripStr input
  if is_http_url url then some url
  else
    let url :=
      if !hasSubstr "://".data url.data && url.data.contains '.' &&
          !url.data.contains ' ' then
        let candidate := "https://" ++ url
        if is_http_url candidate then candidate else url
      else url
    if is_http_url url then some url else none

/-! ## `app/main.py`: the allocation protocol of `shorten`. -/

/-- The retry loop of `shorten` (`max_tries = 30`): at each attempt `i` the
code `codes i` is generated; `fault i = true` models `db.upsert_inactive_or_insert`
raising (the transaction rolls back, the loop continues); a `False` result
(active-code collision) also continues the loop.  Returns the allocated code
(or `none` when the fuel runs out) and the final table. -/
def alloc_loop (now : Int) (url : String) (monetize : Bool)
    (codes : Nat → String) (fault : Nat → Bool) :
    Nat → Nat → LinkDb → Option String × LinkDb
  | 0, _, db => (none, db)
  | fuel + 1, i, db =>
    if fault i then alloc_loop now url monetize codes fault fuel (i + 1) db
    else if (upsert_inactive_or_insert now (codes i) url monetize db).2 then
      (some (codes i), (upsert_inactive_or_insert now (codes i) url monetize db).1)
    else
      alloc_loop now url monetize codes fault fuel (i + 1)
        (upsert_inactive_or_insert now (codes i) url monetize db).1

/-- The `shorten` endpoint after request parsing: validate (400 on failure,
before any store access), run the throttled expiry sweep (`sweep` says
whether the cooldown has elapsed), attempt one recycle and return its code
on success, otherwise run the 30-attempt loop; 503 when it is exhausted.
The result pairs the HTTP outcome (error status or allocated code) with the
final table state. -/
def shorten (now inactivity : Int) (sweep : Bool) (input : String) (monetize : Bool)
    (codes : Nat → String) (fault : Nat → Bool) (db : LinkDb) :
    Except Nat String × LinkDb :=
  match validate_url input with
  | none => (Except.error 400, db)
  | some url =>
    match recycle_one_inactive now url monetize
        (if sweep then (expire_inactive now inactivity db).1 else db) with
    | (db2, some c) => (Except.ok c, db2)
    | (db2, none) =>
      match alloc_loop now url monetize codes fault 30 0 db2 with
      | (some c, db3) => (Except.ok c, db3)
      | (none, db3) => (Except.error 503, db3)

/-! ## `app/main.py`: session authentication.  The JSON payload is modelled
as an association list of string keys and primitive values; base64url+JSON
encoding/decoding and the keyed HMAC-SHA256 hex digest are library
primitives, passed in as `enc`/`dec`/`mac`. -/

/-- JSON primitive values as far as `_verify_session` inspects them. -/
inductive JVal where
  | jnum (n : Int)
  | jstr (s : String)
deriving Repr, DecidableEq

/-- Payload is the parsed JSON object of a session token. -/
abbrev Payload := List (String × JVal)

/-- Python `payload.get(k)`. -/
def pget (p : Payload) (k : String) : Option JVal :=
  (p.find? (fun kv => kv.1 == k)).map Prod.snd

/-- Splits a character list at its last `.`, returning the parts before and
after it (Python `token.rsplit(".", 1)`); `none` when there is no `.`. -/
def splitLastDot : List Char → Option (List Char × List Char)
  | [] => none
  | c :: rest =>
    match splitLastDot rest with
    | some (a, b) => some (c :: a, b)
    | none => if c = '.' then some ([], rest) else none

/-- The `sub` value `_verify_session` accepts. -/
def adminMarker : String := "admin"

/-- _sign_session: serialize+encode the payload, append `.` and the HMAC hex
digest of the encoded part. -/
def sign_session (mac : String → String) (enc : Payload → String)
    (payload : Payload) : String :=
  let encoded := enc payload
  encoded ++ "." ++ mac encoded

/-- Session lifetime (`SESSION_DURATION = timedelta(days=7)`), in seconds. -/
def sessionDuration : Int := 7 * 86400

/-- _create_session_token: sign `{"sub": "admin", "exp": now + 7 days}`. -/
def create_session_token (mac : String → String) (enc : Payload → String)
    (now : Int) : String :=
  sign_session mac enc [("exp", JVal.jnum (now + sessionDuration)),
                        ("sub", JVal.jstr adminMarker)]

/-- _verify_session: reject an absent/empty token or one without a `.`;
recompute the HMAC of the encoded part and compare with the provided
signature; decode/parse the payload; require a numeric `exp` not in the
past and `sub == "admin"`. -/
def verify_session (mac : String → String) (dec : String → Option Payload)
    (now : Int) (token : Option String) : Bool :=
  match token with
  | none => false
  | some t =>
    if t == "" then false
    else
      match splitLastDot t.data with
      | none => false
      | some (encL, sigL) =>
        let encoded := String.mk encL
        let sig := String.mk sigL
        if !(sig == mac encoded) then false
        else
          match dec encoded with
          | none => false
          | some payload =>
            match pget payload "exp" with
            | some (JVal.jnum e) =>
              if now > e then false
              else
                match pget payload "sub" with
                | some (JVal.jstr s) => s == adminMarker
                | _ => false
            | _ => false

/-! ## Shared helper lemmas -/

/-- Rows with the same code are equal under the primary-key invariant. -/
theorem code_eq_of_nodup {db : LinkDb} (hnd : codesNodup db) {a b : Link}
    (ha : a ∈ db) (hb : b ∈ db) (hc : a.code = b.code) : a = b :=
  List.inj_on_of_nodup_map hnd ha hb hc

/-- Mapping a code-preserving update over the table keeps codes distinct. -/
theorem codesNodup_map {db : LinkDb} {f : Link → Link}
    (hf : ∀ l, (f l).code = l.code) (hnd : codesNodup db) : codesNodup (db.map f) := by
  unfold codesNodup at *
  rw [List.map_map]
  have hfe : (Link.code ∘ f) = Link.code := funext fun l => hf l
  rw [hfe]
  exact hnd

/-- A pointwise relation between a table and its image under a row update. -/
theorem forall₂_map_self {R : Link → Link → Prop} {db : LinkDb} {f : Link → Link}
    (h : ∀ l ∈ db, R l (f l)) : List.Forall₂ R db (db.map f) := by
  rw [List.forall₂_map_right_iff]
  exact List.forall₂_same.mpr h

/-- Under the primary-key invariant, an active row is exactly what
`get_active` returns for its code. -/
theorem get_active_unique {db : LinkDb} (hnd : codesNodup db) {l : Link}
    (hl : l ∈ db) (hact : l.active = true) : get_active l.code db = some l := by
  unfold get_active
  have hsome : (db.find? (fun r => r.code == l.code && r.active)).isSome := by
    rw [List.find?_isSome]
    exact ⟨l, hl, by simp [hact]⟩
  obtain ⟨m, hm⟩ := Option.isSome_iff_exists.mp hsome
  have hmem := List.mem_of_find?_eq_some hm
  have hp := List.find?_some hm
  simp only [Bool.and_eq_true, beq_iff_eq] at hp
  rw [hm, code_eq_of_nodup hnd hmem hl hp.1]

/-! ## C4: expiration sweep -/

/-- C4: `expireInactive` with inactivity window `w` deactivates exactly the
rows with `active = true`, `never_expires = false` and
`last_access_at < now - w`, changing no other field and no other row;
its count is the number of such rows; and it is idempotent: a second sweep
at the same instant changes nothing and reports zero rows. -/
theorem expire_inactive_spec (now w : Int) (db : LinkDb) :
    List.Forall₂ (fun l l' =>
      (l.active = true ∧ l.never_expires = false ∧ l.last_access_at < now - w →
        l' = { l with active := false }) ∧
      (¬(l.active = true ∧ l.never_expires = false ∧ l.last_access_at < now - w) →
        l' = l))
      db (expire_inactive now w db).1
    ∧ (expire_inactive now w db).2
        = (db.filter (fun l =>
            l.active && !l.never_expires && decide (l.last_access_at < now - w))).length
    ∧ expire_inactive now w (expire_inactive now w db).1
        = ((expire_inactive now w db).1, 0) := by
  have hmatch : ∀ l : Link, expireMatch (now - w) l = true ↔
      l.active = true ∧ l.never_expires = false ∧ l.last_access_at < now - w := by
    intro l
    simp [expireMatch, Bool.and_eq_true, Bool.not_eq_true']
    tauto
  refine ⟨?_, rfl, ?_⟩
  · apply forall₂_map_self
    intro l _
    by_cases hm : expireMatch (now - w) l = true
    · rw [if_pos hm]
      exact ⟨fun _ => rfl, fun hc => absurd ((hmatch l).mp hm) hc⟩
    · rw [if_neg hm]
      exact ⟨fun hc => absurd ((hmatch l).mpr hc) hm, fun _ => rfl⟩
  · have hall : ∀ l' ∈ (expire_inactive now w db).1, ¬ expireMatch (now - w) l' = true := by
      intro l' hl'
      unfold expire_inactive at hl'
      rw [List.mem_map] at hl'
      obtain ⟨l, _, rfl⟩ := hl'
      by_cases hm : expireMatch (now - w) l = true
      · rw [if_pos hm]
        simp [expireMatch]
      · rw [if_neg hm]
        exact hm
    have h1 : (expire_inactive now w (expire_inactive now w db).1).1
        = (expire_inactive now w db).1 := by
      unfold expire_inactive
      refine (List.map_congr_left ?_).trans (List.map_id _)
      intro l hl
      exact if_neg (hall l hl)
    have h2 : (expire_inactive now w (expire_inactive now w db).1).2 = 0 := by
      unfold expire_inactive
      simp only [List.length_eq_zero, List.filter_eq_nil_iff]
      exact hall
    calc expire_inactive now w (expire_inactive now w db).1
        = ((expire_inactive now w (expire_inactive now w db).1).1,
           (expire_inactive now w (expire_inactive now w db).1).2) := rfl
      _ = ((expire_inactive now w db).1, 0) := by rw [h1, h2]

/-- Witness for C4 on a three-row table (stale, fresh, pinned): the sweep
deactivates only the stale row, counts one row, and a second sweep is a
no-op. -/
theorem expire_inactive_spec_witness :
    expire_inactive 0 100
        (expire_inactive 0 100
          [⟨"a", "t", -200, -101, true, 0, false, false⟩,
           ⟨"b", "t", -200, -99, true, 0, false, false⟩,
           ⟨"c", "t", -200, -1000, true, 0, true, false⟩]).1
      = ((expire_inactive 0 100
          [⟨"a", "t", -200, -101, true, 0, false, false⟩,
           ⟨"b", "t", -200, -99, true, 0, false, false⟩,
           ⟨"c", "t", -200, -1000, true, 0, true, false⟩]).1, 0)
    ∧ expire_inactive 0 100
        [⟨"a", "t", -200, -101, true, 0, false, false⟩,
         ⟨"b", "t", -200, -99, true, 0, false, false⟩,
         ⟨"c", "t", -200, -1000, true, 0, true, false⟩]
      = ([⟨"a", "t", -200, -101, false, 0, false, false⟩,
          ⟨"b", "t", -200, -99, true, 0, false, false⟩,
          ⟨"c", "t", -200, -1000, true, 0, true, false⟩], 1) :=
  ⟨(expire_inactive_spec 0 100
      [⟨"a", "t", -200, -101, true, 0, false, false⟩,
       ⟨"b", "t", -200, -99, true, 0, false, false⟩,
       ⟨"c", "t", -200, -1000, true, 0, true, false⟩]).2.2,
   by decide⟩

/-! ## C8: touch -/

/-- C8: `touch` updates exactly the active row of the given code, setting
`last_access_at := now` and incrementing `click_count` by one while keeping
every other field; every other row is untouched; and when no active row
carries the code (unknown or inactive), the table is unchanged. -/
theorem touch_spec (now : Int) (code : String) (db : LinkDb) :
    List.Forall₂ (fun l l' =>
      (l.code = code ∧ l.active = true →
        l' = { l with last_access_at := now, click_count := l.click_count + 1 }) ∧
      (¬(l.code = code ∧ l.active = true) → l' = l))
      db (touch now code db)
    ∧ ((∀ l ∈ db, l.code = code → l.active = false) → touch now code db = db) := by
  constructor
  · apply forall₂_map_self
    intro l _
    by_cases hc : (l.code == code && l.active) = true
    · rw [if_pos hc]
      simp only [Bool.and_eq_true, beq_iff_eq] at hc
      exact ⟨fun _ => rfl, fun h => absurd hc h⟩
    · rw [if_neg hc]
      refine ⟨fun h => ?_, fun _ => rfl⟩
      exact absurd (by simp [h.1, h.2] : (l.code == code && l.active) = true) hc
  · intro hno
    unfold touch
    refine (List.map_congr_left ?_).trans (List.map_id _)
    intro l hl
    apply if_neg
    intro hc
    simp only [Bool.and_eq_true, beq_iff_eq] at hc
    exact absurd (hno l hl hc.1) (by simp [hc.2])

/-- Witness for C8: touching an active code bumps its counter and timestamp
only; touching an inactive code and an unknown code changes nothing. -/
theorem touch_spec_witness :
    touch 9 "a" [⟨"a", "t", 0, 1, true, 3, false, false⟩,
                 ⟨"b", "t", 0, 1, false, 5, false, false⟩]
      = [⟨"a", "t", 0, 9, true, 4, false, false⟩,
         ⟨"b", "t", 0, 1, false, 5, false, false⟩]
    ∧ touch 9 "b" [⟨"a", "t", 0, 1, true, 3, false, false⟩,
                   ⟨"b", "t", 0, 1, false, 5, false, false⟩]
      = [⟨"a", "t", 0, 1, true, 3, false, false⟩,
         ⟨"b", "t", 0, 1, false, 5, false, false⟩]
    ∧ touch 9 "zz" [⟨"a", "t", 0, 1, true, 3, false, false⟩,
                    ⟨"b", "t", 0, 1, false, 5, false, false⟩]
      = [⟨"a", "t", 0, 1, true, 3, false, false⟩,
         ⟨"b", "t", 0, 1, false, 5, false, false⟩] :=
  ⟨by decide,
   (touch_spec 9 "b" _).2 (by decide),
   (touch_spec 9 "zz" _).2 (by decide)⟩

/-! ## C2: conditional upsert -/

/-- C2: `upsert_inactive_or_insert` on a code with no row inserts a fresh
active row and succeeds; on a code whose row is active it fails and mutates
nothing; on a code whose row is inactive it reactivates exactly that row
(overwriting `target_url`, `created_at`, `last_access_at`, `monetize`,
setting `active := true`) and succeeds. -/
theorem upsert_spec (now : Int) (code url : String) (mon : Bool) (db : LinkDb)
    (hnd : codesNodup db) :
    ((∀ l ∈ db, l.code ≠ code) →
      upsert_inactive_or_insert now code url mon db
        = (db ++ [freshRow now code url mon], true))
    ∧ (∀ l ∈ db, l.code = code → l.active = true →
      upsert_inactive_or_insert now code url mon db = (db, false))
    ∧ (∀ l ∈ db, l.code = code → l.active = false →
      upsert_inactive_or_insert now code url mon db
        = (db.map (fun r => if r.code == code then reactivate now url mon r else r),
           true)) := by
  have hfind : ∀ l ∈ db, l.code = code →
      db.find? (fun r => r.code == code) = some l := by
    intro l hl hc
    have hsome : (db.find? (fun r => r.code == code)).isSome := by
      rw [List.find?_isSome]
      exact ⟨l, hl, by simp [hc]⟩
    obtain ⟨m, hm⟩ := Option.isSome_iff_exists.mp hsome
    have hmem := List.mem_of_find?_eq_some hm
    have hp := List.find?_some hm
    simp only [beq_iff_eq] at hp
    rw [hm, code_eq_of_nodup hnd hmem hl (hp.trans hc.symm)]
  refine ⟨?_, ?_, ?_⟩
  · intro hno
    have hnone : db.find? (fun r => r.code == code) = none := by
      rw [List.find?_eq_none]
      intro x hx
      simp [hno x hx]
    unfold upsert_inactive_or_insert
    rw [hnone]
  · intro l hl hc hact
    simp only [upsert_inactive_or_insert, hfind l hl hc, hact, if_true]
  · intro l hl hc hact
    simp only [upsert_inactive_or_insert, hfind l hl hc, hact,
      Bool.false_eq_true, if_false]
    refine congrArg (fun x => (x, true)) (List.map_congr_left ?_)
    intro r hr
    by_cases hrc : r.code = code
    · have hrl : r = l := code_eq_of_nodup hnd hr hl (hrc.trans hc.symm)
      have hra : r.active = false := by rw [hrl]; exact hact
      simp [hrc, hra]
    · simp [hrc]

/-- Witness for C2: on a table with an active row `a` and an inactive row
`b`, upserting a fresh code `z` inserts, upserting `a` fails without
mutation, and upserting `b` reactivates it. -/
theorem upsert_spec_witness :
    upsert_inactive_or_insert 10 "z" "http://u" true
        [⟨"a", "t", 0, 1, true, 2, false, false⟩,
         ⟨"b", "t", 0, 1, false, 7, true, false⟩]
      = ([⟨"a", "t", 0, 1, true, 2, false, false⟩,
          ⟨"b", "t", 0, 1, false, 7, true, false⟩]
          ++ [freshRow 10 "z" "http://u" true], true)
    ∧ upsert_inactive_or_insert 10 "a" "http://u" true
        [⟨"a", "t", 0, 1, true, 2, false, false⟩,
         ⟨"b", "t", 0, 1, false, 7, true, false⟩]
      = ([⟨"a", "t", 0, 1, true, 2, false, false⟩,
          ⟨"b", "t", 0, 1, false, 7, true, false⟩], false)
    ∧ upsert_inactive_or_insert 10 "b" "http://u" true
        [⟨"a", "t", 0, 1, true, 2, false, false⟩,
         ⟨"b", "t", 0, 1, false, 7, true, false⟩]
      = ([⟨"a", "t", 0, 1, true, 2, false, false⟩,
          ⟨"b", "http://u", 10, 10, true, 7, true, true⟩], true) :=
  ⟨(upsert_spec 10 "z" "http://u" true
      [⟨"a", "t", 0, 1, true, 2, false, false⟩,
       ⟨"b", "t", 0, 1, false, 7, true, false⟩] (by decide)).1 (by decide),
   (upsert_spec 10 "a" "http://u" true
      [⟨"a", "t", 0, 1, true, 2, false, false⟩,
       ⟨"b", "t", 0, 1, false, 7, true, false⟩] (by decide)).2.1
     ⟨"a", "t", 0, 1, true, 2, false, false⟩ (by decide) rfl rfl,
   by
    have h := (upsert_spec 10 "b" "http://u" true
      [⟨"a", "t", 0, 1, true, 2, false, false⟩,
       ⟨"b", "t", 0, 1, false, 7, true, false⟩] (by decide)).2.2
      ⟨"b", "t", 0, 1, false, 7, true, false⟩ (by decide) rfl rfl
    rw [h]
    decide⟩

/-! ## C10: admin credential fallback -/

/-- C10: with no row in `admin_users`, `get_admin_password_hash` falls back
to the hash of the configured default password, so `verify_admin_password`
accepts the default password and (for a collision-free hash) rejects every
other candidate — admin login works without the credential being seeded. -/
theorem admin_default_spec (hashPw : String → String) (defaultPw : String)
    (hinj : Function.Injective hashPw) :
    get_admin_password_hash hashPw defaultPw none = hashPw defaultPw
    ∧ verify_admin_password hashPw defaultPw none defaultPw = true
    ∧ ∀ cand, cand ≠ defaultPw →
        verify_admin_password hashPw defaultPw none cand = false := by
  refine ⟨rfl, ?_, ?_⟩
  · simp [verify_admin_password, get_admin_password_hash]
  · intro cand hne
    simp only [verify_admin_password, get_admin_password_hash,
      beq_eq_false_iff_ne, ne_eq]
    intro h
    exact hne (hinj h.symm)

/-- Witness for C10 with the identity as (injective) hash: the default
password verifies against an empty admin table; a different one does not. -/
theorem admin_default_spec_witness :
    verify_admin_password (fun s => s) "admin" none "admin" = true
    ∧ verify_admin_password (fun s => s) "admin" none "hunter2" = false :=
  ⟨(admin_default_spec (fun s => s) "admin" (fun _ _ h => h)).2.1,
   (admin_default_spec (fun s => s) "admin" (fun _ _ h => h)).2.2 "hunter2" (by decide)⟩

/-! ## C3: recycling -/

/-- The accumulator step of `selectOldestInactive` always produces a value. -/
theorem min_step_isSome (acc : Option Link) (x : Link) :
    ∃ c, minStep acc x = some c := by
  cases acc with
  | none => exact ⟨x, rfl⟩
  | some b =>
    by_cases hlt : x.last_access_at < b.last_access_at
    · exact ⟨x, if_pos hlt⟩
    · exact ⟨b, if_neg hlt⟩

/-- The accumulator step of `selectOldestInactive` keeps either the incoming
row or the accumulator, whichever has the smaller `last_access_at`. -/
theorem min_step_spec (acc : Option Link) (x c : Link)
    (h : minStep acc x = some c) :
    (c = x ∨ acc = some c) ∧ c.last_access_at ≤ x.last_access_at
    ∧ ∀ b, acc = some b → c.last_access_at ≤ b.last_access_at := by
  cases acc with
  | none =>
    obtain rfl : x = c := Option.some.inj h
    exact ⟨Or.inl rfl, le_refl _, fun b hb => by cases hb⟩
  | some b =>
    simp only [minStep] at h
    by_cases hlt : x.last_access_at < b.last_access_at
    · rw [if_pos hlt] at h
      obtain rfl : x = c := Option.some.inj h
      refine ⟨Or.inl rfl, le_refl _, fun b' hb' => ?_⟩
      obtain rfl : b = b' := Option.some.inj hb'
      exact le_of_lt hlt
    · rw [if_neg hlt] at h
      obtain rfl : b = c := Option.some.inj h
      refine ⟨Or.inr rfl, le_of_not_lt hlt, fun b' hb' => ?_⟩
      obtain rfl : b = b' := Option.some.inj hb'
      exact le_refl _

/-- Folding the accumulator step over a list yields a minimal element of the
list (or of the initial accumulator). -/
theorem foldl_min_spec (xs : List Link) : ∀ (acc : Option Link) (sel : Link),
    xs.foldl minStep acc = some sel →
    (sel ∈ xs ∨ acc = some sel)
    ∧ (∀ l ∈ xs, sel.last_access_at ≤ l.last_access_at)
    ∧ (∀ b, acc = some b → sel.last_access_at ≤ b.last_access_at) := by
  induction xs with
  | nil =>
    intro acc sel h
    simp only [List.foldl_nil] at h
    refine ⟨Or.inr h, by simp, fun b hb => ?_⟩
    rw [h] at hb
    obtain rfl : sel = b := Option.some.inj hb
    exact le_refl _
  | cons x xs ih =>
    intro acc sel h
    simp only [List.foldl_cons] at h
    obtain ⟨c, hc⟩ := min_step_isSome acc x
    rw [hc] at h
    obtain ⟨hmem, hmin, hacc⟩ := ih (some c) sel h
    obtain ⟨hor, hcx, hcb⟩ := min_step_spec acc x c hc
    have hsc : sel.last_access_at ≤ c.last_access_at := hacc c rfl
    refine ⟨?_, ?_, ?_⟩
    · rcases hmem with hmem | hmem
      · exact Or.inl (List.mem_cons_of_mem _ hmem)
      · obtain rfl : c = sel := Option.some.inj hmem
        rcases hor with rfl | h1
        · exact Or.inl (List.mem_cons_self _ _)
        · exact Or.inr h1
    · intro l hl
      rcases List.mem_cons.mp hl with rfl | hl
      · exact le_trans hsc hcx
      · exact hmin l hl
    · intro b hb
      exact le_trans hsc (hcb b hb)

/-- C3: `recycle_one_inactive` returns `none` (leaving the table unchanged)
when every row is active; any selected row is an inactive row of minimal
`last_access_at`; a sequential run reactivates exactly the selected row
with the new URL, monetize flag and timestamps and returns its code; and
when the `UPDATE` affects zero rows (the racy snapshot has no inactive row
of that code left) it returns `none` rather than retrying. -/
theorem recycle_spec (now : Int) (url : String) (mon : Bool) (db dbU : LinkDb) :
    ((∀ l ∈ db, l.active = true) → recycle_one_inactive now url mon db = (db, none))
    ∧ (∀ sel, selectOldestInactive db = some sel →
        sel ∈ db ∧ sel.active = false
        ∧ ∀ l ∈ db, l.active = false → sel.last_access_at ≤ l.last_access_at)
    ∧ (codesNodup db → ∀ sel, selectOldestInactive db = some sel →
        recycle_one_inactive now url mon db
          = (db.map (fun r =>
               if r.code == sel.code then reactivate now url mon r else r),
             some sel.code))
    ∧ (∀ sel, selectOldestInactive db = some sel →
        (dbU.filter (fun l => l.code == sel.code && !l.active)).length = 0 →
        recycle_racy now url mon db dbU = (dbU, none)) := by
  have hsel : ∀ sel, selectOldestInactive db = some sel →
      sel ∈ db ∧ sel.active = false
      ∧ ∀ l ∈ db, l.active = false → sel.last_access_at ≤ l.last_access_at := by
    intro sel h
    unfold selectOldestInactive at h
    obtain ⟨hmem, hmin, -⟩ := foldl_min_spec _ _ _ h
    rcases hmem with hmem | hmem
    · rw [List.mem_filter] at hmem
      refine ⟨hmem.1, by simpa using hmem.2, ?_⟩
      intro l hl hla
      exact hmin l (List.mem_filter.mpr ⟨hl, by simp [hla]⟩)
    · cases hmem
  refine ⟨?_, hsel, ?_, ?_⟩
  · intro hall
    have hfil : db.filter (fun l => !l.active) = [] := by
      rw [List.filter_eq_nil_iff]
      intro l hl
      simp [hall l hl]
    unfold recycle_one_inactive recycle_racy selectOldestInactive
    rw [hfil]
    rfl
  · intro hnd sel h
    obtain ⟨hmem, hact, -⟩ := hsel sel h
    unfold recycle_one_inactive recycle_racy
    rw [h]
    have hne : ¬ (recycleUpdate now url mon sel.code db).2 = 0 := by
      show ¬ (db.filter (fun l => l.code == sel.code && !l.active)).length = 0
      intro h0
      rw [List.length_eq_zero, List.filter_eq_nil_iff] at h0
      exact h0 sel hmem (by simp [hact])
    show (if (recycleUpdate now url mon sel.code db).2 = 0 then
            ((recycleUpdate now url mon sel.code db).1, none)
          else ((recycleUpdate now url mon sel.code db).1, some sel.code)) = _
    rw [if_neg hne]
    refine congrArg (fun x => (x, some sel.code)) ?_
    show db.map (fun l =>
        if l.code == sel.code && !l.active then reactivate now url mon l else l)
      = db.map (fun r => if r.code == sel.code then reactivate now url mon r else r)
    apply List.map_congr_left
    intro r hr
    by_cases hrc : r.code = sel.code
    · have hrl : r = sel := code_eq_of_nodup hnd hr hmem hrc
      have hra : r.active = false := by rw [hrl]; exact hact
      simp [hrc, hra]
    · simp [hrc]
  · intro sel h h0
    unfold recycle_racy
    rw [h]
    show (if (recycleUpdate now url mon sel.code dbU).2 = 0 then
            ((recycleUpdate now url mon sel.code dbU).1, none)
          else ((recycleUpdate now url mon sel.code dbU).1, some sel.code)) = _
    rw [if_pos (show (recycleUpdate now url mon sel.code dbU).2 = 0 from h0)]
    refine congrArg (fun x => (x, (none : Option String))) ?_
    show dbU.map (fun l =>
        if l.code == sel.code && !l.active then reactivate now url mon l else l) = dbU
    refine (List.map_congr_left ?_).trans (List.map_id _)
    intro l hl
    rw [List.length_eq_zero, List.filter_eq_nil_iff] at h0
    exact if_neg (by simpa using h0 l hl)

/-- Witness for C3: among inactive codes `A` (touched three days ago) and
`B` (touched one day ago) recycling reactivates `A`; and with a racy update
snapshot in which `A` is already active again, it returns `none`. -/
theorem recycle_spec_witness :
    recycle_one_inactive 0 "http://new" false
        [⟨"A", "t", -400000, -259200, false, 3, false, false⟩,
         ⟨"B", "t", -400000, -86400, false, 1, false, false⟩]
      = ([⟨"A", "http://new", 0, 0, true, 3, false, false⟩,
          ⟨"B", "t", -400000, -86400, false, 1, false, false⟩], some "A")
    ∧ recycle_racy 0 "http://new" false
        [⟨"A", "t", -400000, -259200, false, 3, false, false⟩,
         ⟨"B", "t", -400000, -86400, false, 1, false, false⟩]
        [⟨"A", "u", -1, -1, true, 3, false, false⟩]
      = ([⟨"A", "u", -1, -1, true, 3, false, false⟩], none) :=
  ⟨by
    have h := (recycle_spec 0 "http://new" false
      [⟨"A", "t", -400000, -259200, false, 3, false, false⟩,
       ⟨"B", "t", -400000, -86400, false, 1, false, false⟩] []).2.2.1
      (by decide) ⟨"A", "t", -400000, -259200, false, 3, false, false⟩ (by decide)
    rw [h]
    decide,
   (recycle_spec 0 "http://new" false
      [⟨"A", "t", -400000, -259200, false, 3, false, false⟩,
       ⟨"B", "t", -400000, -86400, false, 1, false, false⟩]
      [⟨"A", "u", -1, -1, true, 3, false, false⟩]).2.2.2
     ⟨"A", "t", -400000, -259200, false, 3, false, false⟩ (by decide) (by decide)⟩

/-! ## C7: shorten input validation -/

/-- C7: a shorten input is accepted iff (after stripping) it is an http(s)
URL with a non-empty host, or the one normalization applies — no `://`, a
`.`, no space, and prefixing `https://` makes it validate; `example.com`
normalizes to `https://example.com`, while `not a url` and
`ftp://example.com` are rejected, as is `http://[x` (the parser's
unmatched-bracket failure), while a non-breaking-space-padded bare domain
is stripped and normalized; a rejected input makes `shorten` answer 400
with the store untouched. -/
theorem validate_url_spec (u : String) :
    ((validate_url u).isSome ↔
      (is_http_url (stripStr u) = true
       ∨ (hasSubstr "://".data (stripStr u).data = false
          ∧ (stripStr u).data.contains '.' = true
          ∧ (stripStr u).data.contains ' ' = false
          ∧ is_http_url ("https://" ++ stripStr u) = true)))
    ∧ validate_url "example.com" = some "https://example.com"
    ∧ validate_url "not a url" = none
    ∧ validate_url "ftp://example.com" = none
    ∧ validate_url "http://[x" = none
    ∧ validate_url " example.com " = some "https://example.com"
    ∧ (∀ (now w : Int) (sweep : Bool) (mon : Bool) (codes : Nat → String)
        (fault : Nat → Bool) (db : LinkDb), validate_url u = none →
        shorten now w sweep u mon codes fault db = (Except.error 400, db)) := by
  refine ⟨?_, by decide, by decide, by decide, by decide, by decide, ?_⟩
  · unfold validate_url
    cases h1 : is_http_url (stripStr u)
    · cases h2 : hasSubstr "://".data (stripStr u).data
      · cases h3 : (stripStr u).data.contains '.'
        · have h3' : ('.' : Char) ∉ (stripStr u).data := by simpa using h3
          simp [h1, h2, h3, h3']
        · have h3' : ('.' : Char) ∈ (stripStr u).data := by simpa using h3
          cases h4 : (stripStr u).data.contains ' '
          · have h4' : (' ' : Char) ∉ (stripStr u).data := by simpa using h4
            cases h5 : is_http_url ("https://" ++ stripStr u)
            · simp [h1, h2, h3, h4, h5, h3', h4']
            · simp [h1, h2, h3, h4, h5, h3', h4']
          · have h4' : (' ' : Char) ∈ (stripStr u).data := by simpa using h4
            simp [h1, h2, h3, h4, h4']
      · simp [h1, h2]
    · simp [h1]
  · intro now w sweep mon codes fault db hv
    unfold shorten
    rw [hv]

/-- Witness for C7: a rejected input produces the 400 outcome on a concrete
store without touching it. -/
theorem validate_url_spec_witness :
    shorten 0 30 false "not a url" false (fun _ => "x") (fun _ => false)
        [⟨"a", "t", 0, 1, true, 2, false, false⟩]
      = (Except.error 400, [⟨"a", "t", 0, 1, true, 2, false, false⟩]) :=
  (validate_url_spec "not a url").2.2.2.2.2.2 0 30 false false
    (fun _ => "x") (fun _ => false) _ (by decide)

/-! ## C5: session verification -/

/-- splitLastDot finds nothing exactly on dot-free input. -/
theorem splitLastDot_eq_none (cs : List Char) : splitLastDot cs = none ↔ '.' ∉ cs := by
  induction cs with
  | nil => simp [splitLastDot]
  | cons c rest ih =>
    simp only [splitLastDot]
    cases h : splitLastDot rest with
    | some p =>
      have : '.' ∈ rest := by
        by_contra hn
        rw [ih.mpr hn] at h
        cases h
      simp [this]
    | none =>
      by_cases hc : c = '.'
      · simp [hc]
      · simp only [if_neg hc]
        rw [ih] at h
        simp [h, List.mem_cons, hc]
        exact fun h' => absurd h'.symm hc

/-- splitLastDot cuts at the last dot. -/
theorem splitLastDot_append (a b : List Char) (hb : '.' ∉ b) :
    splitLastDot (a ++ '.' :: b) = some (a, b) := by
  induction a with
  | nil =>
    simp only [List.nil_append, splitLastDot, (splitLastDot_eq_none b).mpr hb]
    simp
  | cons c a ih =>
    show (match splitLastDot (a ++ '.' :: b) with
          | some (p, q) => some (c :: p, q)
          | none => if c = '.' then some ([], a ++ '.' :: b) else none)
        = some (c :: a, b)
    rw [ih]

/-- C5: `_verify_session` rejects an absent token, a token without a
separator, a signature that does not match the recomputed HMAC of the
encoded part, an undecodable payload, a missing or non-numeric or
past `exp`, and a `sub` other than the admin marker; and it accepts a token
freshly issued by `_create_session_token` when checked before its 7-day
expiry (for any codec that round-trips the payload and any dot-free
signature). -/
theorem verify_session_spec (mac : String → String) (dec : String → Option Payload)
    (enc : Payload → String) (now : Int) :
    verify_session mac dec now none = false
    ∧ (∀ t : String, '.' ∉ t.data → verify_session mac dec now (some t) = false)
    ∧ (∀ (t : String) (encL sigL : List Char),
        splitLastDot t.data = some (encL, sigL) →
        String.mk sigL ≠ mac (String.mk encL) →
        verify_session mac dec now (some t) = false)
    ∧ (∀ (t : String) (encL sigL : List Char),
        splitLastDot t.data = some (encL, sigL) →
        dec (String.mk encL) = none →
        verify_session mac dec now (some t) = false)
    ∧ (∀ (t : String) (encL sigL : List Char) (p : Payload),
        splitLastDot t.data = some (encL, sigL) →
        dec (String.mk encL) = some p →
        (∀ e : Int, pget p "exp" ≠ some (JVal.jnum e)) →
        verify_session mac dec now (some t) = false)
    ∧ (∀ (t : String) (encL sigL : List Char) (p : Payload) (e : Int),
        splitLastDot t.data = some (encL, sigL) →
        dec (String.mk encL) = some p →
        pget p "exp" = some (JVal.jnum e) → e < now →
        verify_session mac dec now (some t) = false)
    ∧ (∀ (t : String) (encL sigL : List Char) (p : Payload) (e : Int),
        splitLastDot t.data = some (encL, sigL) →
        dec (String.mk encL) = some p →
        pget p "exp" = some (JVal.jnum e) → now ≤ e →
        pget p "sub" ≠ some (JVal.jstr adminMarker) →
        verify_session mac dec now (some t) = false)
    ∧ (∀ now0 : Int,
        dec (enc [("exp", JVal.jnum (now0 + sessionDuration)),
                  ("sub", JVal.jstr adminMarker)])
          = some [("exp", JVal.jnum (now0 + sessionDuration)),
                  ("sub", JVal.jstr adminMarker)] →
        '.' ∉ (mac (enc [("exp", JVal.jnum (now0 + sessionDuration)),
                         ("sub", JVal.jstr adminMarker)])).data →
        now ≤ now0 + sessionDuration →
        verify_session mac dec now (some (create_session_token mac enc now0)) = true) := by
  refine ⟨rfl, ?_, ?_, ?_, ?_, ?_, ?_, ?_⟩
  · intro t hdot
    simp only [verify_session, (splitLastDot_eq_none t.data).mpr hdot]
    cases hE : (t == "") <;> simp [hE]
  · intro t encL sigL hsplit hneq
    simp only [verify_session, hsplit]
    cases hE : (t == "")
    · simp [hE, beq_eq_false_iff_ne.mpr hneq]
    · simp [hE]
  · intro t encL sigL hsplit hdec
    simp only [verify_session, hsplit]
    cases hE : (t == "")
    · cases hS : (String.mk sigL == mac (String.mk encL)) <;> simp [hE, hS, hdec]
    · simp [hE]
  · intro t encL sigL p hsplit hdec hexp
    simp only [verify_session, hsplit]
    cases hE : (t == "")
    · cases hS : (String.mk sigL == mac (String.mk encL))
      · simp [hE, hS]
      · cases hx : pget p "exp" with
        | none => simp [hE, hS, hdec, hx]
        | some v =>
          cases v with
          | jnum e => exact absurd hx (hexp e)
          | jstr s => simp [hE, hS, hdec, hx]
    · simp [hE]
  · intro t encL sigL p e hsplit hdec hx he
    simp only [verify_session, hsplit]
    cases hE : (t == "")
    · cases hS : (String.mk sigL == mac (String.mk encL))
      · simp [hE, hS]
      · simp [hE, hS, hdec, hx, he]
    · simp [hE]
  · intro t encL sigL p e hsplit hdec hx hle hsub
    simp only [verify_session, hsplit]
    cases hE : (t == "")
    · cases hS : (String.mk sigL == mac (String.mk encL))
      · simp [hE, hS]
      · have hgt : ¬ (now > e) := not_lt.mpr hle
        cases hs : pget p "sub" with
        | none => simp [hE, hS, hdec, hx, hgt, hs]
        | some v =>
          cases v with
          | jnum m => simp [hE, hS, hdec, hx, hgt, hs]
          | jstr s =>
            have : ¬ s = adminMarker := fun hcontra => hsub (by rw [hs, hcontra])
            simp [hE, hS, hdec, hx, hgt, hs, this]
    · simp [hE]
  · intro now0 hdec hdot hle
    have hdata : (create_session_token mac enc now0).data
        = (enc [("exp", JVal.jnum (now0 + sessionDuration)),
                ("sub", JVal.jstr adminMarker)]).data
          ++ '.' :: (mac (enc [("exp", JVal.jnum (now0 + sessionDuration)),
                               ("sub", JVal.jstr adminMarker)])).data := by
      show ((enc _ ++ ".") ++ mac (enc _)).data = _
      simp [String.data_append]
    have hsplit : splitLastDot (create_session_token mac enc now0).data
        = some ((enc [("exp", JVal.jnum (now0 + sessionDuration)),
                      ("sub", JVal.jstr adminMarker)]).data,
                (mac (enc [("exp", JVal.jnum (now0 + sessionDuration)),
                           ("sub", JVal.jstr adminMarker)])).data) := by
      rw [hdata]
      exact splitLastDot_append _ _ hdot
    have hne : ((create_session_token mac enc now0) == "") = false := by
      rw [beq_eq_false_iff_ne]
      intro h0
      rw [h0] at hdata
      exact absurd hdata.symm (by simp)
    simp only [verify_session, hne, hsplit, Bool.false_eq_true, if_false]
    have hmk : ∀ s : String, String.mk s.data = s := fun s => rfl
    rw [hmk, hmk]
    simp only [beq_self_eq_true, Bool.not_true, Bool.false_eq_true, if_false, hdec]
    have hgt : ¬ (now > now0 + sessionDuration) := not_lt.mpr hle
    simp [pget, hgt, adminMarker]

/-- Witness for C5 at a concrete codec and signature function: an expired
token fails, a wrong-signature token fails, a fresh token passes. -/
theorem verify_session_spec_witness :
    verify_session (fun s => "S" ++ s)
        (fun s => if s == "payload" then
            some [("exp", JVal.jnum 604800), ("sub", JVal.jstr "admin")] else none)
        604801 (some ("payload" ++ "." ++ "Spayload")) = false
    ∧ verify_session (fun s => "S" ++ s)
        (fun s => if s == "payload" then
            some [("exp", JVal.jnum 604800), ("sub", JVal.jstr "admin")] else none)
        10 (some ("payload" ++ "." ++ "XX")) = false
    ∧ verify_session (fun _ => "SIG")
        (fun s => if s == "ENC" then
            some [("exp", JVal.jnum 604800), ("sub", JVal.jstr "admin")] else none)
        10 (some (create_session_token (fun _ => "SIG") (fun _ => "ENC") 0)) = true :=
  ⟨(verify_session_spec (fun s => "S" ++ s)
      (fun s => if s == "payload" then
          some [("exp", JVal.jnum 604800), ("sub", JVal.jstr "admin")] else none)
      (fun _ => "") 604801).2.2.2.2.2.1 _ "payload".data "Spayload".data
      [("exp", JVal.jnum 604800), ("sub", JVal.jstr "admin")] 604800
      (by decide) (by decide) (by decide) (by decide),
   (verify_session_spec (fun s => "S" ++ s)
      (fun s => if s == "payload" then
          some [("exp", JVal.jnum 604800), ("sub", JVal.jstr "admin")] else none)
      (fun _ => "") 10).2.2.1 _ "payload".data "XX".data
      (by decide) (by decide),
   (verify_session_spec (fun _ => "SIG")
      (fun s => if s == "ENC" then
          some [("exp", JVal.jnum 604800), ("sub", JVal.jstr "admin")] else none)
      (fun _ => "ENC") 10).2.2.2.2.2.2.2 0
      (by decide) (by decide) (by decide)⟩

/-! ## C6: the allocation protocol -/

/-- A failed conditional upsert (active-code collision) mutates nothing. -/
theorem upsert_fail_state (now : Int) (code url : String) (mon : Bool) (db : LinkDb)
    (h : (upsert_inactive_or_insert now code url mon db).2 = false) :
    (upsert_inactive_or_insert now code url mon db).1 = db := by
  cases hf : db.find? (fun l => l.code == code) with
  | none =>
    simp only [upsert_inactive_or_insert, hf] at h
    exact Bool.noConfusion h
  | some l =>
    simp only [upsert_inactive_or_insert, hf] at h ⊢
    by_cases ha : l.active = true
    · simp [ha]
    · simp [ha] at h

/-- The retry loop reports failure exactly when every attempt within its
fuel faults or collides; in that case the table is left unchanged. -/
theorem alloc_loop_none (now : Int) (url : String) (mon : Bool)
    (codes : Nat → String) (fault : Nat → Bool) :
    ∀ (fuel i : Nat) (db : LinkDb),
    ((alloc_loop now url mon codes fault fuel i db).1 = none ↔
      ∀ j < fuel, fault (i + j) = true
        ∨ (upsert_inactive_or_insert now (codes (i + j)) url mon db).2 = false)
    ∧ ((alloc_loop now url mon codes fault fuel i db).1 = none →
        (alloc_loop now url mon codes fault fuel i db).2 = db) := by
  intro fuel
  induction fuel with
  | zero =>
    intro i db
    exact ⟨⟨fun _ j hj => absurd hj (Nat.not_lt_zero j), fun _ => rfl⟩, fun _ => rfl⟩
  | succ fuel ih =>
    intro i db
    by_cases hf : fault i = true
    · have hred : alloc_loop now url mon codes fault (fuel + 1) i db
          = alloc_loop now url mon codes fault fuel (i + 1) db := by
        simp only [alloc_loop, hf, if_true]
      rw [hred]
      obtain ⟨ih1, ih2⟩ := ih (i + 1) db
      refine ⟨ih1.trans ⟨?_, ?_⟩, ih2⟩
      · intro h j hj
        cases j with
        | zero => exact Or.inl (by simpa using hf)
        | succ j =>
          have hj' : j < fuel := by omega
          have := h j hj'
          have harith : i + 1 + j = i + (j + 1) := by omega
          rwa [harith] at this
      · intro h j hj
        have := h (j + 1) (by omega)
        have harith : i + (j + 1) = i + 1 + j := by omega
        rwa [harith] at this
    · have hf' : fault i = false := by simpa using hf
      by_cases hs : (upsert_inactive_or_insert now (codes i) url mon db).2 = true
      · have hred : alloc_loop now url mon codes fault (fuel + 1) i db
            = (some (codes i), (upsert_inactive_or_insert now (codes i) url mon db).1) := by
          simp only [alloc_loop, hf', hs, Bool.false_eq_true, if_false, if_true]
        rw [hred]
        refine ⟨⟨fun h => Option.noConfusion h, fun h => ?_⟩,
          fun h => Option.noConfusion h⟩
        have := h 0 (by omega)
        simp only [Nat.add_zero] at this
        rcases this with h1 | h1
        · rw [hf'] at h1; cases h1
        · rw [hs] at h1; cases h1
      · have hs' : (upsert_inactive_or_insert now (codes i) url mon db).2 = false := by
          simpa using hs
        have hst := upsert_fail_state now (codes i) url mon db hs'
        have hred : alloc_loop now url mon codes fault (fuel + 1) i db
            = alloc_loop now url mon codes fault fuel (i + 1) db := by
          simp only [alloc_loop, hf', hs', Bool.false_eq_true, if_false]
          rw [hst]
        rw [hred]
        obtain ⟨ih1, ih2⟩ := ih (i + 1) db
        refine ⟨ih1.trans ⟨?_, ?_⟩, ih2⟩
        · intro h j hj
          cases j with
          | zero => exact Or.inr (by simpa using hs')
          | succ j =>
            have hj' : j < fuel := by omega
            have := h j hj'
            have harith : i + 1 + j = i + (j + 1) := by omega
            rwa [harith] at this
        · intro h j hj
          have := h (j + 1) (by omega)
          have harith : i + (j + 1) = i + 1 + j := by omega
          rwa [harith] at this

/-- A successful retry loop run got its code from some attempt within the
fuel: the first non-faulting, non-colliding one, applied to the unchanged
entry table. -/
theorem alloc_loop_some (now : Int) (url : String) (mon : Bool)
    (codes : Nat → String) (fault : Nat → Bool) :
    ∀ (fuel i : Nat) (db db' : LinkDb) (c : String),
    alloc_loop now url mon codes fault fuel i db = (some c, db') →
    ∃ j, j < fuel ∧ fault (i + j) = false
      ∧ (upsert_inactive_or_insert now (codes (i + j)) url mon db).2 = true
      ∧ c = codes (i + j)
      ∧ db' = (upsert_inactive_or_insert now (codes (i + j)) url mon db).1 := by
  intro fuel
  induction fuel with
  | zero =>
    intro i db db' c h
    simp only [alloc_loop] at h
    cases h
  | succ fuel ih =>
    intro i db db' c h
    by_cases hf : fault i = true
    · have hred : alloc_loop now url mon codes fault (fuel + 1) i db
          = alloc_loop now url mon codes fault fuel (i + 1) db := by
        simp only [alloc_loop, hf, if_true]
      rw [hred] at h
      obtain ⟨j, hj, h1, h2, h3, h4⟩ := ih (i + 1) db db' c h
      have harith : i + 1 + j = i + (j + 1) := by omega
      rw [harith] at h1 h2 h3 h4
      exact ⟨j + 1, by omega, h1, h2, h3, h4⟩
    · have hf' : fault i = false := by simpa using hf
      by_cases hs : (upsert_inactive_or_insert now (codes i) url mon db).2 = true
      · have hred : alloc_loop now url mon codes fault (fuel + 1) i db
            = (some (codes i), (upsert_inactive_or_insert now (codes i) url mon db).1) := by
          simp only [alloc_loop, hf', hs, Bool.false_eq_true, if_false, if_true]
        rw [hred] at h
        rw [Prod.mk.injEq] at h
        obtain ⟨h1, h2⟩ := h
        obtain rfl : codes i = c := Option.some.inj h1
        exact ⟨0, by omega, by simpa using hf', by simpa using hs, by simp, by simp [h2.symm]⟩
      · have hs' : (upsert_inactive_or_insert now (codes i) url mon db).2 = false := by
          simpa using hs
        have hst := upsert_fail_state now (codes i) url mon db hs'
        have hred : alloc_loop now url mon codes fault (fuel + 1) i db
            = alloc_loop now url mon codes fault fuel (i + 1) db := by
          simp only [alloc_loop, hf', hs', Bool.false_eq_true, if_false]
          rw [hst]
        rw [hred] at h
        obtain ⟨j, hj, h1, h2, h3, h4⟩ := ih (i + 1) db db' c h
        have harith : i + 1 + j = i + (j + 1) := by omega
        rw [harith] at h1 h2 h3 h4
        exact ⟨j + 1, by omega, h1, h2, h3, h4⟩

/-- C6: for a validated request, the allocation protocol returns a recycled
code immediately when recycling succeeds; otherwise its outcome is that of
the 30-attempt loop: it answers 503 exactly when every one of the 30
attempts faults or collides (single faults and collisions only continue the
loop), and a success is the code of one such attempt. -/
theorem shorten_alloc_spec (now w : Int) (sweep : Bool) (u url : String) (mon : Bool)
    (codes : Nat → String) (fault : Nat → Bool) (db : LinkDb) :
    (validate_url u = some url →
      ∀ (c : String) (db2 : LinkDb),
        recycle_one_inactive now url mon
            (if sweep then (expire_inactive now w db).1 else db) = (db2, some c) →
        shorten now w sweep u mon codes fault db = (Except.ok c, db2))
    ∧ (validate_url u = some url →
      ∀ db2 : LinkDb,
        recycle_one_inactive now url mon
            (if sweep then (expire_inactive now w db).1 else db) = (db2, none) →
        (((shorten now w sweep u mon codes fault db).1 = Except.error 503) ↔
          ∀ j < 30, fault j = true
            ∨ (upsert_inactive_or_insert now (codes j) url mon db2).2 = false)
        ∧ ∀ c : String, (shorten now w sweep u mon codes fault db).1 = Except.ok c →
            ∃ j, j < 30 ∧ fault j = false
              ∧ (upsert_inactive_or_insert now (codes j) url mon db2).2 = true
              ∧ c = codes j) := by
  constructor
  · intro hv c db2 hrec
    simp only [shorten, hv, hrec]
  · intro hv db2 hrec
    have hshort : shorten now w sweep u mon codes fault db
        = (match alloc_loop now url mon codes fault 30 0 db2 with
           | (some c, db3) => (Except.ok c, db3)
           | (none, db3) => (Except.error 503, db3)) := by
      simp only [shorten, hv, hrec]
    constructor
    · rcases halloc : alloc_loop now url mon codes fault 30 0 db2 with ⟨oc, db3⟩
      rw [halloc] at hshort
      cases oc with
      | none =>
        rw [hshort]
        simp only [Except.error.injEq, true_iff]
        have := ((alloc_loop_none now url mon codes fault 30 0 db2).1).mp
          (by rw [halloc])
        intro j hj
        have h := this j hj
        simpa using h
      | some c0 =>
        rw [hshort]
        constructor
        · intro hcontra
          cases hcontra
        · intro hall
          have hnone : (alloc_loop now url mon codes fault 30 0 db2).1 = none := by
            apply ((alloc_loop_none now url mon codes fault 30 0 db2).1).mpr
            intro j hj
            simpa using hall j hj
          rw [halloc] at hnone
          cases hnone
    · intro c hc
      rcases halloc : alloc_loop now url mon codes fault 30 0 db2 with ⟨oc, db3⟩
      rw [halloc] at hshort
      cases oc with
      | none =>
        rw [hshort] at hc
        cases hc
      | some c0 =>
        rw [hshort] at hc
        obtain rfl : c0 = c := Except.ok.inj hc
        obtain ⟨j, hj, h1, h2, h3, -⟩ :=
          alloc_loop_some now url mon codes fault 30 0 db2 db3 c0 halloc
        simp only [Nat.zero_add] at h1 h2 h3
        exact ⟨j, hj, h1, h2, h3⟩

/-- Witness for C6: with one inactive slot the shorten call returns the
recycled code immediately; with an empty table and a storage fault on every
attempt, it answers 503. -/
theorem shorten_alloc_spec_witness :
    shorten 0 30 false "http://x.y" false (fun _ => "Z") (fun _ => false)
        [⟨"A", "t", -10, -5, false, 3, false, false⟩]
      = (Except.ok "A", [⟨"A", "http://x.y", 0, 0, true, 3, false, false⟩])
    ∧ (shorten 0 30 false "http://x.y" false (fun _ => "Z") (fun _ => true) []).1
      = Except.error 503 :=
  ⟨(shorten_alloc_spec 0 30 false "http://x.y" "http://x.y" false
      (fun _ => "Z") (fun _ => false)
      [⟨"A", "t", -10, -5, false, 3, false, false⟩]).1 (by decide) "A"
      [⟨"A", "http://x.y", 0, 0, true, 3, false, false⟩] (by decide),
   ((shorten_alloc_spec 0 30 false "http://x.y" "http://x.y" false
      (fun _ => "Z") (fun _ => true) []).2 (by decide) [] (by decide)).1.mpr
      (by decide)⟩

/-! ## C9: click-count monotonicity and reactivation frame -/

/-- Mapping a row update that preserves codes and never decreases
`click_count` over the table never decreases any code's `clickAt`. -/
theorem clickAt_map_mono (c : String) (db : LinkDb) (f : Link → Link)
    (hcode : ∀ l, (f l).code = l.code)
    (hclick : ∀ l, l.click_count ≤ (f l).click_count) :
    ∀ n m, clickAt c db = some n → clickAt c (db.map f) = some m → n ≤ m := by
  intro n m hn hm
  unfold clickAt at hn hm
  rw [List.find?_map] at hm
  have hpred : ((fun l : Link => l.code == c) ∘ f) = (fun l : Link => l.code == c) := by
    funext l
    simp [Function.comp, hcode l]
  rw [hpred] at hm
  cases hf : db.find? (fun l : Link => l.code == c) with
  | none => rw [hf] at hn; cases hn
  | some l =>
    rw [hf] at hn hm
    simp only [Option.map_some'] at hn hm
    obtain rfl : l.click_count = n := Option.some.inj hn
    obtain rfl : (f l).click_count = m := Option.some.inj hm
    exact hclick l

/-- Filtering out the rows of one code leaves lookups of other codes
unchanged. -/
theorem find?_filter_keep (db : LinkDb) (code c : String) (hne : c ≠ code) :
    (db.filter (fun l => !(l.code == code))).find? (fun l => l.code == c)
      = db.find? (fun l => l.code == c) := by
  induction db with
  | nil => rfl
  | cons x xs ih =>
    rw [List.filter_cons]
    by_cases hx : x.code = code
    · have h1 : (!(x.code == code)) = false := by simp [hx]
      have h2 : (x.code == c) = false := by
        simp only [beq_eq_false_iff_ne, ne_eq]
        rw [hx]
        exact fun h => hne h.symm
      rw [h1]
      simp only [Bool.false_eq_true, if_false]
      rw [List.find?_cons, h2, ih]
    · have h1 : (!(x.code == code)) = true := by simp [hx]
      rw [h1]
      simp only [if_true]
      cases hc : (x.code == c)
      · rw [List.find?_cons, List.find?_cons, hc, ih]
      · rw [List.find?_cons, List.find?_cons, hc]

/-- C9: no LinkStore operation ever decreases an existing row's
`click_count`; and both reactivation paths (the recycle `UPDATE` and the
upsert's conflict arm) keep each row's `click_count` and `never_expires`
while overwriting `target_url`, `created_at`, `last_access_at`, `monetize`
and `active`. -/
theorem click_monotone_spec (now w : Int) (code url c : String) (mon v : Bool)
    (db dbSel : LinkDb) :
    (∀ n m, clickAt c db = some n →
      clickAt c (expire_inactive now w db).1 = some m → n ≤ m)
    ∧ (∀ n m, clickAt c db = some n →
      clickAt c (touch now code db) = some m → n ≤ m)
    ∧ (∀ n m, clickAt c db = some n →
      clickAt c (upsert_inactive_or_insert now code url mon db).1 = some m → n ≤ m)
    ∧ (∀ n m, clickAt c db = some n →
      clickAt c (recycle_racy now url mon dbSel db).1 = some m → n ≤ m)
    ∧ (∀ n m, clickAt c db = some n →
      clickAt c (delete_link code db).1 = some m → n ≤ m)
    ∧ (∀ n m, clickAt c db = some n →
      clickAt c (set_never_expires code v db).1 = some m → n ≤ m)
    ∧ (∀ n m, clickAt c db = some n →
      clickAt c (set_monetize code v db).1 = some m → n ≤ m)
    ∧ List.Forall₂ (fun l l' =>
        l'.click_count = l.click_count ∧ l'.never_expires = l.never_expires
        ∧ (l' = l ∨ (l'.target_url = url ∧ l'.created_at = now
            ∧ l'.last_access_at = now ∧ l'.monetize = mon ∧ l'.active = true)))
        db (recycleUpdate now url mon code db).1
    ∧ ((db.find? (fun l => l.code == code)).isSome →
      List.Forall₂ (fun l l' =>
        l'.click_count = l.click_count ∧ l'.never_expires = l.never_expires
        ∧ (l' = l ∨ (l'.target_url = url ∧ l'.created_at = now
            ∧ l'.last_access_at = now ∧ l'.monetize = mon ∧ l'.active = true)))
        db (upsert_inactive_or_insert now code url mon db).1) := by
  refine ⟨?_, ?_, ?_, ?_, ?_, ?_, ?_, ?_, ?_⟩
  · exact clickAt_map_mono c db _
      (fun l => by by_cases h : expireMatch (now - w) l = true <;> simp [h])
      (fun l => by by_cases h : expireMatch (now - w) l = true <;> simp [h])
  · exact clickAt_map_mono c db _
      (fun l => by by_cases h : (l.code == code && l.active) = true <;> simp [h])
      (fun l => by by_cases h : (l.code == code && l.active) = true <;> simp [h])
  · intro n m hn hm
    cases hf : db.find? (fun l => l.code == code) with
    | none =>
      have hres : (upsert_inactive_or_insert now code url mon db).1
          = db ++ [freshRow now code url mon] := by
        simp only [upsert_inactive_or_insert, hf]
      rw [hres] at hm
      unfold clickAt at hn hm
      rw [List.find?_append] at hm
      cases hq : db.find? (fun l : Link => l.code == c) with
      | none => rw [hq] at hn; cases hn
      | some l =>
        rw [hq] at hn hm
        simp only [Option.or_some, Option.map_some'] at hm
        simp only [Option.map_some'] at hn
        exact le_of_eq (Option.some.inj (hn.symm.trans hm))
    | some l =>
      by_cases ha : l.active = true
      · have hres : (upsert_inactive_or_insert now code url mon db).1 = db := by
          simp only [upsert_inactive_or_insert, hf, ha, if_true]
        rw [hres] at hm
        exact le_of_eq (Option.some.inj (hn.symm.trans hm))
      · have ha' : l.active = false := by simpa using ha
        have hres : (upsert_inactive_or_insert now code url mon db).1
            = db.map (fun r =>
                if r.code == code && !r.active then reactivate now url mon r else r) := by
          simp only [upsert_inactive_or_insert, hf, ha', Bool.false_eq_true, if_false]
        rw [hres] at hm
        exact clickAt_map_mono c db _
          (fun r => by
            by_cases h : (r.code == code && !r.active) = true <;> simp [h, reactivate])
          (fun r => by
            by_cases h : (r.code == code && !r.active) = true <;> simp [h, reactivate])
          n m hn hm
  · intro n m hn hm
    have hcases : (recycle_racy now url mon dbSel db).1 = db
        ∨ ∃ s : Link, (recycle_racy now url mon dbSel db).1
            = db.map (fun l =>
                if l.code == s.code && !l.active then reactivate now url mon l else l) := by
      unfold recycle_racy
      cases selectOldestInactive dbSel with
      | none => exact Or.inl rfl
      | some sel =>
        by_cases h0 : (recycleUpdate now url mon sel.code db).2 = 0
        · refine Or.inr ⟨sel, ?_⟩
          show (if (recycleUpdate now url mon sel.code db).2 = 0 then
                  ((recycleUpdate now url mon sel.code db).1, (none : Option String))
                else ((recycleUpdate now url mon sel.code db).1, some sel.code)).1 = _
          rw [if_pos h0]
          rfl
        · refine Or.inr ⟨sel, ?_⟩
          show (if (recycleUpdate now url mon sel.code db).2 = 0 then
                  ((recycleUpdate now url mon sel.code db).1, (none : Option String))
                else ((recycleUpdate now url mon sel.code db).1, some sel.code)).1 = _
          rw [if_neg h0]
          rfl
    rcases hcases with he | ⟨s, he⟩
    · rw [he] at hm
      exact le_of_eq (Option.some.inj (hn.symm.trans hm))
    · rw [he] at hm
      exact clickAt_map_mono c db _
        (fun l => by
          by_cases h : (l.code == s.code && !l.active) = true <;> simp [h, reactivate])
        (fun l => by
          by_cases h : (l.code == s.code && !l.active) = true <;> simp [h, reactivate])
        n m hn hm
  · intro n m hn hm
    by_cases hc : c = code
    · subst hc
      have hnone : clickAt c (delete_link c db).1 = none := by
        unfold clickAt delete_link
        rw [Option.map_eq_none', List.find?_eq_none]
        intro x hx
        rw [List.mem_filter] at hx
        simpa using hx.2
      rw [hnone] at hm
      cases hm
    · unfold clickAt delete_link at hm
      rw [find?_filter_keep db code c hc] at hm
      unfold clickAt at hn
      exact le_of_eq (Option.some.inj (hn.symm.trans hm))
  · exact clickAt_map_mono c db _
      (fun l => by by_cases h : (l.code == code) = true <;> simp [h])
      (fun l => by by_cases h : (l.code == code) = true <;> simp [h])
  · exact clickAt_map_mono c db _
      (fun l => by by_cases h : (l.code == code) = true <;> simp [h])
      (fun l => by by_cases h : (l.code == code) = true <;> simp [h])
  · apply forall₂_map_self
    intro l _
    by_cases hcnd : (l.code == code && !l.active) = true
    · rw [if_pos hcnd]
      exact ⟨rfl, rfl, Or.inr ⟨rfl, rfl, rfl, rfl, rfl⟩⟩
    · rw [if_neg hcnd]
      exact ⟨rfl, rfl, Or.inl rfl⟩
  · intro hsome
    rw [Option.isSome_iff_exists] at hsome
    obtain ⟨l, hf⟩ := hsome
    by_cases ha : l.active = true
    · have hres : (upsert_inactive_or_insert now code url mon db).1 = db := by
        simp only [upsert_inactive_or_insert, hf, ha, if_true]
      rw [hres]
      exact List.forall₂_same.mpr (fun a _ => ⟨rfl, rfl, Or.inl rfl⟩)
    · have ha' : l.active = false := by simpa using ha
      have hres : (upsert_inactive_or_insert now code url mon db).1
          = db.map (fun r =>
              if r.code == code && !r.active then reactivate now url mon r else r) := by
        simp only [upsert_inactive_or_insert, hf, ha', Bool.false_eq_true, if_false]
      rw [hres]
      apply forall₂_map_self
      intro r _
      by_cases hcnd : (r.code == code && !r.active) = true
      · rw [if_pos hcnd]
        exact ⟨rfl, rfl, Or.inr ⟨rfl, rfl, rfl, rfl, rfl⟩⟩
      · rw [if_neg hcnd]
        exact ⟨rfl, rfl, Or.inl rfl⟩

/-- Witness for C9: touching a row takes its count from 3 to 4 (never
down), and the upsert conflict arm on an inactive row keeps `click_count`
7 and `never_expires` true. -/
theorem click_monotone_spec_witness :
    (3 : Nat) ≤ 4
    ∧ List.Forall₂ (fun l l' =>
        l'.click_count = l.click_count ∧ l'.never_expires = l.never_expires
        ∧ (l' = l ∨ (l'.target_url = "u" ∧ l'.created_at = 9
            ∧ l'.last_access_at = 9 ∧ l'.monetize = true ∧ l'.active = true)))
        [⟨"a", "t", 0, 1, false, 7, true, false⟩]
        (upsert_inactive_or_insert 9 "a" "u" true
          [⟨"a", "t", 0, 1, false, 7, true, false⟩]).1 :=
  ⟨(click_monotone_spec 9 100 "a" "u" "a" true false
      [⟨"a", "t", 0, 1, true, 3, false, false⟩] []).2.1 3 4 (by decide) (by decide),
   (click_monotone_spec 9 100 "a" "u" "a" true false
      [⟨"a", "t", 0, 1, false, 7, true, false⟩] []).2.2.2.2.2.2.2.2 (by decide)⟩

/-! ## C1: shorten followed by redirect resolves the same URL -/

/-- A selected recycling candidate is an inactive member of the table. -/
theorem selectOldest_mem {db : LinkDb} {sel : Link}
    (h : selectOldestInactive db = some sel) : sel ∈ db ∧ sel.active = false := by
  unfold selectOldestInactive at h
  obtain ⟨hmem, -, -⟩ := foldl_min_spec _ _ _ h
  rcases hmem with hmem | hmem
  · rw [List.mem_filter] at hmem
    exact ⟨hmem.1, by simpa using hmem.2⟩
  · cases hmem

/-- The expiry sweep keeps codes distinct. -/
theorem expire_nodup (now w : Int) {db : LinkDb} (hnd : codesNodup db) :
    codesNodup (expire_inactive now w db).1 := by
  show codesNodup (db.map (fun l =>
    if expireMatch (now - w) l then { l with active := false } else l))
  exact codesNodup_map (fun l => by
    by_cases h : expireMatch (now - w) l = true <;> simp [h]) hnd

/-- Recycling keeps codes distinct. -/
theorem recycle_racy_nodup (now : Int) (url : String) (mon : Bool) (dbSel : LinkDb)
    {db : LinkDb} (hnd : codesNodup db) :
    codesNodup (recycle_racy now url mon dbSel db).1 := by
  unfold recycle_racy
  cases selectOldestInactive dbSel with
  | none => exact hnd
  | some sel =>
    by_cases h0 : (recycleUpdate now url mon sel.code db).2 = 0
    · show codesNodup (if (recycleUpdate now url mon sel.code db).2 = 0 then
          ((recycleUpdate now url mon sel.code db).1, (none : Option String))
        else ((recycleUpdate now url mon sel.code db).1, some sel.code)).1
      rw [if_pos h0]
      exact codesNodup_map (fun l => by
        by_cases hc : (l.code == sel.code && !l.active) = true <;>
          simp [hc, reactivate]) hnd
    · show codesNodup (if (recycleUpdate now url mon sel.code db).2 = 0 then
          ((recycleUpdate now url mon sel.code db).1, (none : Option String))
        else ((recycleUpdate now url mon sel.code db).1, some sel.code)).1
      rw [if_neg h0]
      exact codesNodup_map (fun l => by
        by_cases hc : (l.code == sel.code && !l.active) = true <;>
          simp [hc, reactivate]) hnd

/-- A successful recycle leaves codes distinct and an active row carrying
the returned code, the requested URL and the current timestamp. -/
theorem recycle_success (now : Int) (url : String) (mon : Bool) (db db' : LinkDb)
    (c : String) (hnd : codesNodup db)
    (h : recycle_one_inactive now url mon db = (db', some c)) :
    codesNodup db'
    ∧ ∃ l ∈ db', l.code = c ∧ l.active = true ∧ l.target_url = url
        ∧ l.last_access_at = now := by
  have hnd' : codesNodup db' := by
    have h1 := recycle_racy_nodup now url mon db hnd
    have h3 : codesNodup (recycle_one_inactive now url mon db).1 := h1
    rwa [congrArg Prod.fst h] at h3
  refine ⟨hnd', ?_⟩
  cases hsel : selectOldestInactive db with
  | none =>
    have heq : recycle_one_inactive now url mon db = (db, none) := by
      simp only [recycle_one_inactive, recycle_racy, hsel]
    rw [heq] at h
    rw [Prod.mk.injEq] at h
    exact absurd h.2 (by simp)
  | some sel =>
    by_cases h0 : (recycleUpdate now url mon sel.code db).2 = 0
    · have heq : recycle_one_inactive now url mon db
          = ((recycleUpdate now url mon sel.code db).1, none) := by
        simp only [recycle_one_inactive, recycle_racy, hsel]
        rw [if_pos h0]
      rw [heq] at h
      rw [Prod.mk.injEq] at h
      exact absurd h.2 (by simp)
    · have heq : recycle_one_inactive now url mon db
          = ((recycleUpdate now url mon sel.code db).1, some sel.code) := by
        simp only [recycle_one_inactive, recycle_racy, hsel]
        rw [if_neg h0]
      rw [heq] at h
      rw [Prod.mk.injEq] at h
      obtain ⟨hdb, hcode⟩ := h
      obtain rfl : sel.code = c := Option.some.inj hcode
      obtain ⟨hmem, hact⟩ := selectOldest_mem hsel
      refine ⟨reactivate now url mon sel, ?_, rfl, rfl, rfl, rfl⟩
      rw [← hdb]
      have himg : (if (sel.code == sel.code && !sel.active) = true
          then reactivate now url mon sel else sel) = reactivate now url mon sel := by
        simp [hact]
      exact himg ▸ List.mem_map_of_mem _ hmem

/-- A successful conditional upsert leaves codes distinct and an active row
carrying the attempted code, requested URL and current timestamp. -/
theorem upsert_success (now : Int) (code url : String) (mon : Bool) (db : LinkDb)
    (hnd : codesNodup db)
    (h : (upsert_inactive_or_insert now code url mon db).2 = true) :
    codesNodup (upsert_inactive_or_insert now code url mon db).1
    ∧ ∃ l ∈ (upsert_inactive_or_insert now code url mon db).1,
        l.code = code ∧ l.active = true ∧ l.target_url = url
        ∧ l.last_access_at = now := by
  cases hf : db.find? (fun l => l.code == code) with
  | none =>
    have hres : (upsert_inactive_or_insert now code url mon db).1
        = db ++ [freshRow now code url mon] := by
      simp only [upsert_inactive_or_insert, hf]
    rw [hres]
    constructor
    · unfold codesNodup
      rw [List.map_append, List.nodup_append]
      refine ⟨hnd, by simp, ?_⟩
      intro a ha hb
      simp only [List.map_cons, List.map_nil, List.mem_cons, List.not_mem_nil,
        or_false] at hb
      rw [List.find?_eq_none] at hf
      rw [List.mem_map] at ha
      obtain ⟨x, hx, rfl⟩ := ha
      have hxne := hf x hx
      simp only [beq_iff_eq] at hxne
      exact hxne (by simpa using hb)
    · refine ⟨freshRow now code url mon, ?_, rfl, rfl, rfl, rfl⟩
      simp
  | some l =>
    by_cases ha : l.active = true
    · have h2 : (upsert_inactive_or_insert now code url mon db).2 = false := by
        simp only [upsert_inactive_or_insert, hf, ha, if_true]
      rw [h2] at h
      cases h
    · have ha' : l.active = false := by simpa using ha
      have hres : (upsert_inactive_or_insert now code url mon db).1
          = db.map (fun r => if r.code == code && !r.active
              then reactivate now url mon r else r) := by
        simp only [upsert_inactive_or_insert, hf, ha', Bool.false_eq_true, if_false]
      have hlmem := List.mem_of_find?_eq_some hf
      have hlcode : l.code = code := by simpa using List.find?_some hf
      rw [hres]
      constructor
      · exact codesNodup_map (fun r => by
          by_cases hc : (r.code == code && !r.active) = true <;>
            simp [hc, reactivate]) hnd
      · refine ⟨reactivate now url mon l, ?_, ?_, rfl, rfl, rfl⟩
        · have himg : (if (l.code == code && !l.active) = true
              then reactivate now url mon l else l) = reactivate now url mon l := by
            simp [hlcode, ha']
          exact himg ▸ List.mem_map_of_mem _ hlmem
        · show l.code = code
          exact hlcode

/-- A just-written active row still resolves after the redirect handler's
optional throttled sweep (its timestamp is current, so it cannot expire
under a non-negative window). -/
theorem get_active_final (now w : Int) (hw : 0 ≤ w) (sweep2 : Bool) (db' : LinkDb)
    (hnd : codesNodup db') (l : Link) (hl : l ∈ db') (hact : l.active = true)
    (hla : l.last_access_at = now) :
    get_active l.code (if sweep2 then (expire_inactive now w db').1 else db')
      = some l := by
  cases sweep2 with
  | false => simpa using get_active_unique hnd hl hact
  | true =>
    have hexp : expireMatch (now - w) l = false := by
      unfold expireMatch
      have hnl : ¬ (l.last_access_at < now - w) := by
        rw [hla]
        omega
      simp [hnl]
    have hfix : (if expireMatch (now - w) l then { l with active := false } else l)
        = l := by
      rw [hexp]
      simp
    have hmem : l ∈ (expire_inactive now w db').1 := by
      show l ∈ db'.map (fun x =>
        if expireMatch (now - w) x then { x with active := false } else x)
      exact hfix ▸ List.mem_map_of_mem _ hl
    simpa using get_active_unique (expire_nodup now w hnd) hmem hact

/-- C1: for a valid absolute http(s) URL (no surrounding whitespace), a
successful shorten answer `c` resolves right back: the active row for `c`
after the redirect handler's optional sweep stores exactly that URL. -/
theorem shorten_redirect_roundtrip (now w : Int) (sweep sweep2 : Bool) (u : String)
    (mon : Bool) (codes : Nat → String) (fault : Nat → Bool) (db db' : LinkDb)
    (c : String) (hnd : codesNodup db) (hw : 0 ≤ w)
    (hvalid : is_http_url u = true) (hstrip : stripStr u = u)
    (hrun : shorten now w sweep u mon codes fault db = (Except.ok c, db')) :
    ∃ l, get_active c (if sweep2 then (expire_inactive now w db').1 else db')
        = some l ∧ l.target_url = u := by
  have hv : validate_url u = some u := by
    unfold validate_url
    rw [hstrip]
    simp [hvalid]
  have hnd1 : codesNodup (if sweep then (expire_inactive now w db).1 else db) := by
    cases sweep with
    | false => simpa using hnd
    | true => simpa using expire_nodup now w hnd
  rcases hr : recycle_one_inactive now u mon
      (if sweep then (expire_inactive now w db).1 else db) with ⟨db2, oc⟩
  cases oc with
  | some c0 =>
    have hs : shorten now w sweep u mon codes fault db = (Except.ok c0, db2) := by
      simp only [shorten, hv, hr]
    rw [hs] at hrun
    rw [Prod.mk.injEq] at hrun
    obtain ⟨h1, rfl⟩ := hrun
    have hc0 : c0 = c := Except.ok.inj h1
    obtain ⟨hnd2, l, hlmem, hlcode, hlact, hltgt, hlla⟩ :=
      recycle_success now u mon _ db2 c0 hnd1 hr
    refine ⟨l, ?_, hltgt⟩
    rw [← hc0, ← hlcode]
    exact get_active_final now w hw sweep2 db2 hnd2 l hlmem hlact hlla
  | none =>
    rcases ha : alloc_loop now u mon codes fault 30 0 db2 with ⟨oc2, db3⟩
    cases oc2 with
    | none =>
      have hs : shorten now w sweep u mon codes fault db
          = (Except.error 503, db3) := by
        simp only [shorten, hv, hr, ha]
      rw [hs] at hrun
      rw [Prod.mk.injEq] at hrun
      exact absurd hrun.1 (by simp)
    | some c0 =>
      have hs : shorten now w sweep u mon codes fault db = (Except.ok c0, db3) := by
        simp only [shorten, hv, hr, ha]
      rw [hs] at hrun
      rw [Prod.mk.injEq] at hrun
      obtain ⟨h1, rfl⟩ := hrun
      have hc0 : c0 = c := Except.ok.inj h1
      have hnd2 : codesNodup db2 := by
        have h3 : codesNodup (recycle_one_inactive now u mon
            (if sweep then (expire_inactive now w db).1 else db)).1 :=
          recycle_racy_nodup now u mon _ hnd1
        rwa [congrArg Prod.fst hr] at h3
      obtain ⟨j, hj, hfl, hsucc, hcEq, hdb3⟩ :=
        alloc_loop_some now u mon codes fault 30 0 db2 db3 c0 ha
      simp only [Nat.zero_add] at hfl hsucc hcEq hdb3
      obtain ⟨hnd3, l, hlmem, hlcode, hlact, hltgt, hlla⟩ :=
        upsert_success now (codes j) u mon db2 hnd2 hsucc
      refine ⟨l, ?_, hltgt⟩
      rw [← hc0, hcEq, ← hlcode, hdb3]
      exact get_active_final now w hw sweep2 _ hnd3 l hlmem hlact hlla

/-- Witness for C1: shortening `http://x.y` on an empty store yields code
`Z`, and looking `Z` up right after resolves to `http://x.y`. -/
theorem shorten_redirect_roundtrip_witness :
    ∃ l, get_active "Z"
        (if false then
          (expire_inactive 0 30 [freshRow 0 "Z" "http://x.y" false]).1
        else [freshRow 0 "Z" "http://x.y" false])
      = some l ∧ l.target_url = "http://x.y" :=
  shorten_redirect_roundtrip 0 30 false false "http://x.y" false
    (fun _ => "Z") (fun _ => false) [] [freshRow 0 "Z" "http://x.y" false] "Z"
    (by decide) (by decide) (by decide) (by decide) (by rfl)

end Shorten
